import Mathlib

set_option linter.unusedVariables false

/-!
Shallow embedding of the KernelShark `SchedEvents.cpp` plugin
(`src/src/plugins/SchedEvents.cpp`): the second-pass correction of
`sched_switch` entry attribution, the guarded draw entry point, and the
latency-box geometry with its hit test.

The global event stream is modelled as a `List kshark_entry` in chronological
order: the `next` link of the entry at index `i` points to the entry at index
`i + 1`, and is null exactly when `i + 1` is past the end of the list (the
spec describes `next` as "a singly-forward link to the chronologically next
entry in the global stream; may be null at stream end").  A
`kshark_data_container` is a list of (entry index, stored field value) pairs.
-/

/-- Modelled from the spec: the "untouched-by-correction" flag of the entry
visibility bitmask (`KS_PLUGIN_UNTOUCHED_MASK`, defined in
`libkshark-plugin.h`, which is not part of the sources).  We fix it as bit 7;
the claims only depend on it being a single bit of the mask. -/
def KS_PLUGIN_UNTOUCHED_MASK : Nat := 128

/-- One trace entry: owning task id (`pid`), event-kind id (`event_id`) and
the visibility bitmask (`visible`).  The `next` link is represented by the
entry position in the stream list. -/
structure kshark_entry where
  pid : Int
  event_id : Int
  visible : Nat
deriving Repr, DecidableEq

/-- One element of a `kshark_data_container`: a reference to an entry (as an
index into the stream list) together with the stored 64-bit field value. -/
structure kshark_data_field where
  idx : Nat
  field : Int
deriving Repr, DecidableEq

/-- Clearing of the untouched bit: `e->visible &= ~KS_PLUGIN_UNTOUCHED_MASK`.
For the single-bit mask this subtracts the bit when it is set. -/
def clearUntouched (v : Nat) : Nat :=
  v - (v &&& KS_PLUGIN_UNTOUCHED_MASK)

/-- The single mutation of the correction walk, performed on the entry at
index `j`: `e->pid = p; e->visible &= ~KS_PLUGIN_UNTOUCHED_MASK;`.
Out-of-range indices leave the stream unchanged (the C code never reaches
this with a dangling reference). -/
def setPidVisible (ss : List kshark_entry) (j : Nat) (p : Int) : List kshark_entry :=
  match ss.get? j with
  | some e => ss.set j { e with pid := p, visible := clearUntouched e.visible }
  | none => ss

/-- Body of the inner walk of `secondPass`:
`for (; e->next; e = e->next) if (e->next->pid != pid_rec) { mutate e; break }`.
`swIdx` is the index of the `sched_switch` entry `cSS->data[i]->entry` whose
current `pid` is written into the boundary entry; `i` is the position of the
cursor `e`.  The loop is translated with an explicit iteration budget `fuel`
so that the definition is structurally recursive and kernel-computable; the
budget `ss.length - i` used by `walk` below is never exhausted (theorem for
claim C8), so the translation performs exactly the iterations of the C
loop. -/
def walkAux (ss : List kshark_entry) (swIdx : Nat) (pid_rec : Int) :
    Nat → Nat → List kshark_entry
  | _, 0 => ss
  | i, fuel + 1 =>
    if h : i + 1 < ss.length then
      if (ss.get ⟨i + 1, h⟩).pid ≠ pid_rec then
        match ss.get? swIdx with
        | some sw => setPidVisible ss i sw.pid
        | none => ss
      else
        walkAux ss swIdx pid_rec (i + 1) fuel
    else ss

/-- The inner walk of `secondPass`, starting with cursor position `i`. -/
def walk (ss : List kshark_entry) (swIdx : Nat) (pid_rec : Int) (i : Nat) :
    List kshark_entry :=
  walkAux ss swIdx pid_rec i (ss.length - i)

/-- Body of one iteration of the outer loop of `secondPass`: extract
`pid_rec` from the stored field, skip when the entry has no successor, its
pid is zero, its event id equals the successor event id, or `pid_rec`
differs from the successor pid; otherwise run the walk.  `getPid` is the
host-owned accessor `plugin_sched_get_pid` (declared in
`plugins/sched_events.h`, not part of the sources), kept abstract as a
parameter. -/
def processElem (getPid : Int → Int) (d : kshark_data_field)
    (ss : List kshark_entry) : List kshark_entry :=
  match ss.get? d.idx, ss.get? (d.idx + 1) with
  | some e, some nxt =>
    if e.pid = 0 ∨ e.event_id = nxt.event_id ∨ getPid d.field ≠ nxt.pid then ss
    else walk ss d.idx (getPid d.field) d.idx
  | _, _ => ss

/-- The correction pass `secondPass`: the outer loop over the switch
container, threading the mutated stream through the iterations. -/
def secondPass (getPid : Int → Int) (cSS : List kshark_data_field)
    (ss : List kshark_entry) : List kshark_entry :=
  cSS.foldl (fun s d => processElem getPid d s) ss

/-- Fueled version of the walk, used to express its termination bound: it
performs at most `fuel` loop iterations and answers `none` when the fuel runs
out before the loop is done. -/
def walkFuel (ss : List kshark_entry) (swIdx : Nat) (pid_rec : Int) :
    Nat → Nat → Option (List kshark_entry)
  | _, 0 => none
  | i, fuel + 1 =>
    if h : i + 1 < ss.length then
      if (ss.get ⟨i + 1, h⟩).pid ≠ pid_rec then
        match ss.get? swIdx with
        | some sw => some (setPidVisible ss i sw.pid)
        | none => some ss
      else
        walkFuel ss swIdx pid_rec (i + 1) fuel
    else some ss

/-- Search for the first mismatch seen from cursor position `i`, with the
same iteration budget as `walkAux`. -/
def firstMismatchAux (ss : List kshark_entry) (pid_rec : Int) :
    Nat → Nat → Option Nat
  | _, 0 => none
  | i, fuel + 1 =>
    if h : i + 1 < ss.length then
      if (ss.get ⟨i + 1, h⟩).pid ≠ pid_rec then some i
      else firstMismatchAux ss pid_rec (i + 1) fuel
    else none

/-- Position of the first mismatch seen from cursor position `i`: the least
`j ≥ i` whose successor exists and carries a pid different from `pid_rec`.
This is where the walk performs its single mutation. -/
def firstMismatch (ss : List kshark_entry) (pid_rec : Int) (i : Nat) : Option Nat :=
  firstMismatchAux ss pid_rec i (ss.length - i)

/-! Geometry: `KsPlot` points, graphs and the `LatencyBox` shape. -/

/-- A 2-D screen point (`KsPlot::Point`), integer coordinates. -/
structure Point where
  x : Int
  y : Int
deriving Repr, DecidableEq

/-- Modelled from the spec: the host graph/column geometry query
(`KsPlot::Graph`, not part of the sources) — "given a bin index, return its
base screen point and row height".  Only `bin(i)._base` and `height()` are
consulted by the plugin. -/
structure KsGraph where
  bin : Nat → Point
  height : Nat

/-- An RGB color (`KsPlot::Color`), only stored by the plugin. -/
structure Color where
  r : Nat
  g : Nat
  b : Nat
deriving Repr, DecidableEq

/-- The `LatencyBox` rectangle: four points (0 top-left, 1 bottom-left,
2 bottom-right, 3 top-right as set by `makeShape`), the fill flag, stroke
size, color and the stored trace-record data references. -/
structure LatencyBox where
  point0 : Point
  point1 : Point
  point2 : Point
  point3 : Point
  fill : Bool
  size : Int
  color : Color
  data : List kshark_data_field
deriving Repr, DecidableEq

/-- The maximum finite IEEE-754 double, `std::numeric_limits<double>::max()`,
as an exact rational: (2^53 − 1)·2^971.  `LatencyBox::distance` uses it as
the "unreachable" sentinel and performs no arithmetic on it. -/
def dblMax : ℚ := (2 ^ 53 - 1) * 2 ^ 971

/-- The hit test `LatencyBox::distance`: zero when the click is inside the
box, the sentinel otherwise. -/
def LatencyBox.distance (r : LatencyBox) (x y : Int) : ℚ :=
  if x < r.point0.x ∨ x > r.point2.x then dblMax
  else if y < r.point0.y ∨ y > r.point1.y then dblMax
  else 0

/-- The vertical extent used by `makeShape`: `int height = graph[0]->height() * .3`.
The row height is a nonnegative `int`; for every such value the double
product with the literal `.3` truncates to ⌊3·h/10⌋ (the rounding error of
the product is far below the distance to the next integer, and when 3·h/10
is exact the product rounds to it from below), so the embedding uses exact
integer arithmetic. -/
def rowHeight30 (h : Nat) : Int := ((3 * h) / 10 : Nat)

/-- The shape factory `makeShape`.  The source receives vectors and reads
`graph[0]`, `bins[0]` and `bins[1]`; the embedding takes those elements
directly. -/
def makeShape (graph : KsGraph) (bin0 bin1 : Nat)
    (data : List kshark_data_field) (col : Color) (size : Int) : LatencyBox :=
  let p0 := graph.bin bin0
  let p1 := graph.bin bin1
  let height := rowHeight30 graph.height
  { point0 := ⟨p0.x - 1, p0.y - height⟩
    point1 := ⟨p0.x - 1, p0.y - 1⟩
    point2 := ⟨p1.x - 1, p1.y - 1⟩
    point3 := ⟨p1.x - 1, p1.y - height⟩
    fill := false
    size := size
    color := col
    data := data }

/-! The draw entry point `plugin_draw` and its per-stream context. -/

/-- The per-stream plugin context (`plugin_sched_context`, declared in
`plugins/sched_events.h`): the two data containers and the second-pass
flag. -/
structure plugin_sched_context where
  sw_data : List kshark_data_field
  ss_data : List kshark_data_field
  second_pass_done : Bool
deriving Repr, DecidableEq

/-- Modelled from the spec: context creation (in `sched_events.c`, not part
of the sources) — "Correction State: false at context creation". -/
def plugin_sched_context_init (sw ssd : List kshark_data_field) : plugin_sched_context :=
  { sw_data := sw, ss_data := ssd, second_pass_done := false }

/-- The mutable data visible to one stream of `plugin_draw`: the plugin
context and the host entry store for that stream. -/
structure PluginState where
  ctx : plugin_sched_context
  stream : List kshark_entry
deriving Repr, DecidableEq

/-- The arguments of one `plugin_draw` invocation.  `taskDraw` stands for
`draw_action & KSHARK_TASK_DRAW` being nonzero and `hasContext` for
`__get_context(sd)` returning a context (both constants live outside the
sources; only these booleans are consulted). -/
structure DrawArgs where
  taskDraw : Bool
  pid : Int
  hasContext : Bool
deriving Repr, DecidableEq

/-- The draw entry point `plugin_draw`: guard returns, the once-only guarded
correction pass, then shape production.  The interval matcher
`eventFieldIntervalPlot` (from `KsPlugins.hpp`, not part of the sources) is
kept abstract as the parameter `plot`, invoked only past the guards. -/
def plugin_draw (getPid : Int → Int)
    (plot : plugin_sched_context → List kshark_entry → Int → List LatencyBox)
    (a : DrawArgs) (st : PluginState) : PluginState × List LatencyBox :=
  if ¬ a.taskDraw ∨ a.pid = 0 then (st, [])
  else if ¬ a.hasContext then (st, [])
  else
    let st1 :=
      if st.ctx.second_pass_done then st
      else { ctx := { st.ctx with second_pass_done := true },
             stream := secondPass getPid st.ctx.ss_data st.stream }
    (st1, plot st1.ctx st1.stream a.pid)

/-- The state transition of one `plugin_draw` invocation. -/
def drawStep (getPid : Int → Int)
    (plot : plugin_sched_context → List kshark_entry → Int → List LatencyBox)
    (a : DrawArgs) (st : PluginState) : PluginState :=
  (plugin_draw getPid plot a st).1

/-- Number of invocations in a sequence of draws that mutate the entry
stream. -/
def mutCount (getPid : Int → Int)
    (plot : plugin_sched_context → List kshark_entry → Int → List LatencyBox) :
    List DrawArgs → PluginState → Nat
  | [], _ => 0
  | a :: rest, st =>
    (if (drawStep getPid plot a st).stream = st.stream then 0 else 1) +
      mutCount getPid plot rest (drawStep getPid plot a st)

/-- The pid stored at position `k` of the stream, when it exists. -/
def pidAt (ss : List kshark_entry) (k : Nat) : Option Int :=
  (ss.get? k).map kshark_entry.pid

lemma walkAux_congr (ss : List kshark_entry) (swIdx : Nat) (pid_rec : Int) :
    ∀ fuel1 fuel2 i, ss.length - i ≤ fuel1 → ss.length - i ≤ fuel2 →
      walkAux ss swIdx pid_rec i fuel1 = walkAux ss swIdx pid_rec i fuel2 := by
  intro fuel1
  induction fuel1 with
  | zero =>
    intro fuel2 i h1 h2
    cases fuel2 with
    | zero => rfl
    | succ f2 =>
      show ss = walkAux ss swIdx pid_rec i (f2 + 1)
      unfold walkAux
      rw [dif_neg (by omega)]
  | succ f1 ih =>
    intro fuel2 i h1 h2
    cases fuel2 with
    | zero =>
      show walkAux ss swIdx pid_rec i (f1 + 1) = ss
      unfold walkAux
      rw [dif_neg (by omega)]
    | succ f2 =>
      show walkAux ss swIdx pid_rec i (f1 + 1) = walkAux ss swIdx pid_rec i (f2 + 1)
      unfold walkAux
      by_cases h : i + 1 < ss.length
      · rw [dif_pos h, dif_pos h]
        by_cases hm : (ss.get ⟨i + 1, h⟩).pid = pid_rec
        · rw [if_neg (by simpa using hm), if_neg (by simpa using hm)]
          exact ih f2 (i + 1) (by omega) (by omega)
        · rw [if_pos hm, if_pos hm]
      · rw [dif_neg h, dif_neg h]

lemma firstMismatchAux_congr (ss : List kshark_entry) (pid_rec : Int) :
    ∀ fuel1 fuel2 i, ss.length - i ≤ fuel1 → ss.length - i ≤ fuel2 →
      firstMismatchAux ss pid_rec i fuel1 = firstMismatchAux ss pid_rec i fuel2 := by
  intro fuel1
  induction fuel1 with
  | zero =>
    intro fuel2 i h1 h2
    cases fuel2 with
    | zero => rfl
    | succ f2 =>
      show none = firstMismatchAux ss pid_rec i (f2 + 1)
      unfold firstMismatchAux
      rw [dif_neg (by omega)]
  | succ f1 ih =>
    intro fuel2 i h1 h2
    cases fuel2 with
    | zero =>
      show firstMismatchAux ss pid_rec i (f1 + 1) = none
      unfold firstMismatchAux
      rw [dif_neg (by omega)]
    | succ f2 =>
      show firstMismatchAux ss pid_rec i (f1 + 1) = firstMismatchAux ss pid_rec i (f2 + 1)
      unfold firstMismatchAux
      by_cases h : i + 1 < ss.length
      · rw [dif_pos h, dif_pos h]
        by_cases hm : (ss.get ⟨i + 1, h⟩).pid = pid_rec
        · rw [if_neg (by simpa using hm), if_neg (by simpa using hm)]
          exact ih f2 (i + 1) (by omega) (by omega)
        · rw [if_pos hm, if_pos hm]
      · rw [dif_neg h, dif_neg h]

lemma walkAux_zero (ss : List kshark_entry) (swIdx : Nat) (pid_rec : Int) (i : Nat) :
    walkAux ss swIdx pid_rec i 0 = ss := rfl

lemma walkAux_succ (ss : List kshark_entry) (swIdx : Nat) (pid_rec : Int)
    (i fuel : Nat) :
    walkAux ss swIdx pid_rec i (fuel + 1) =
      if h : i + 1 < ss.length then
        if (ss.get ⟨i + 1, h⟩).pid ≠ pid_rec then
          match ss.get? swIdx with
          | some sw => setPidVisible ss i sw.pid
          | none => ss
        else
          walkAux ss swIdx pid_rec (i + 1) fuel
      else ss := rfl

lemma firstMismatchAux_zero (ss : List kshark_entry) (pid_rec : Int) (i : Nat) :
    firstMismatchAux ss pid_rec i 0 = none := rfl

lemma firstMismatchAux_succ (ss : List kshark_entry) (pid_rec : Int) (i fuel : Nat) :
    firstMismatchAux ss pid_rec i (fuel + 1) =
      if h : i + 1 < ss.length then
        if (ss.get ⟨i + 1, h⟩).pid ≠ pid_rec then some i
        else firstMismatchAux ss pid_rec (i + 1) fuel
      else none := rfl

/-- Runtime equation of the walk: exactly the step the C loop performs. -/
lemma walk_step (ss : List kshark_entry) (swIdx : Nat) (pid_rec : Int) (i : Nat) :
    walk ss swIdx pid_rec i =
      if h : i + 1 < ss.length then
        if (ss.get ⟨i + 1, h⟩).pid ≠ pid_rec then
          match ss.get? swIdx with
          | some sw => setPidVisible ss i sw.pid
          | none => ss
        else
          walk ss swIdx pid_rec (i + 1)
      else ss := by
  by_cases h : i + 1 < ss.length
  · have hlen : ss.length - i = (ss.length - (i + 1)) + 1 := by omega
    rw [dif_pos h]
    unfold walk
    rw [hlen, walkAux_succ, dif_pos h]
  · rw [dif_neg h]
    unfold walk
    cases hn : ss.length - i with
    | zero => rfl
    | succ n =>
      rw [walkAux_succ, dif_neg h]

/-- Runtime equation of the mismatch search. -/
lemma firstMismatch_step (ss : List kshark_entry) (pid_rec : Int) (i : Nat) :
    firstMismatch ss pid_rec i =
      if h : i + 1 < ss.length then
        if (ss.get ⟨i + 1, h⟩).pid ≠ pid_rec then some i
        else firstMismatch ss pid_rec (i + 1)
      else none := by
  by_cases h : i + 1 < ss.length
  · have hlen : ss.length - i = (ss.length - (i + 1)) + 1 := by omega
    rw [dif_pos h]
    unfold firstMismatch
    rw [hlen, firstMismatchAux_succ, dif_pos h]
  · rw [dif_neg h]
    unfold firstMismatch
    cases hn : ss.length - i with
    | zero => rfl
    | succ n =>
      rw [firstMismatchAux_succ, dif_neg h]

lemma testBit7_div (v : Nat) : v.testBit 7 = decide (v / 128 % 2 = 1) := by
  rw [Nat.testBit_to_div_mod]

lemma and_untouched (v : Nat) :
    v &&& KS_PLUGIN_UNTOUCHED_MASK = 128 * (v / 128 % 2) := by
  apply Nat.eq_of_testBit_eq
  intro i
  rw [Nat.testBit_and]
  have hm : Nat.testBit KS_PLUGIN_UNTOUCHED_MASK i = decide (7 = i) := by
    rw [show KS_PLUGIN_UNTOUCHED_MASK = 2 ^ 7 from by norm_num [KS_PLUGIN_UNTOUCHED_MASK]]
    exact Nat.testBit_two_pow
  by_cases hi : i = 7
  · subst hi
    rw [hm, testBit7_div]
    rcases Nat.mod_two_eq_zero_or_one (v / 128) with hb | hb <;> rw [hb] <;> decide
  · rw [hm, decide_eq_false (by omega : ¬ 7 = i), Bool.and_false]
    rcases Nat.mod_two_eq_zero_or_one (v / 128) with hb | hb <;> rw [hb]
    · rw [Nat.mul_zero, Nat.zero_testBit]
    · rw [Nat.mul_one, show (128 : Nat) = KS_PLUGIN_UNTOUCHED_MASK from rfl, hm,
        decide_eq_false (by omega : ¬ 7 = i)]

lemma clearUntouched_eq (v : Nat) : clearUntouched v = v - 128 * (v / 128 % 2) := by
  rw [clearUntouched, and_untouched]

lemma clearUntouched_idem (v : Nat) :
    clearUntouched (clearUntouched v) = clearUntouched v := by
  rw [clearUntouched_eq, clearUntouched_eq v]
  omega

lemma setPidVisible_length (ss : List kshark_entry) (j : Nat) (p : Int) :
    (setPidVisible ss j p).length = ss.length := by
  unfold setPidVisible
  cases h : ss.get? j with
  | none => rfl
  | some e => simp

lemma setPidVisible_get?_ne (ss : List kshark_entry) (j : Nat) (p : Int) (k : Nat)
    (hk : k ≠ j) : (setPidVisible ss j p).get? k = ss.get? k := by
  unfold setPidVisible
  cases h : ss.get? j with
  | none => rfl
  | some e => exact List.get?_set_ne _ _ (Ne.symm hk)

lemma setPidVisible_get?_eq (ss : List kshark_entry) (j : Nat) (p : Int)
    (e : kshark_entry) (h : ss.get? j = some e) :
    (setPidVisible ss j p).get? j =
      some { e with pid := p, visible := clearUntouched e.visible } := by
  obtain ⟨hlt, -⟩ := List.get?_eq_some.mp h
  unfold setPidVisible
  rw [h]
  exact List.get?_set_eq_of_lt _ hlt

lemma walk_char_aux (ss : List kshark_entry) (swIdx : Nat) (pid_rec : Int) :
    ∀ n i, ss.length - i ≤ n →
      walk ss swIdx pid_rec i =
        (match firstMismatch ss pid_rec i, ss.get? swIdx with
          | some j, some sw => setPidVisible ss j sw.pid
          | _, _ => ss) := by
  intro n
  induction n with
  | zero =>
    intro i hi
    have hend : ¬ i + 1 < ss.length := by omega
    rw [walk_step, firstMismatch_step, dif_neg hend, dif_neg hend]
  | succ n ih =>
    intro i hi
    rw [walk_step, firstMismatch_step]
    by_cases h : i + 1 < ss.length
    · rw [dif_pos h, dif_pos h]
      by_cases hm : (ss.get ⟨i + 1, h⟩).pid = pid_rec
      · rw [if_neg (by simpa using hm), if_neg (by simpa using hm)]
        exact ih (i + 1) (by omega)
      · rw [if_pos hm, if_pos hm]
        cases hsw : ss.get? swIdx <;> simp
    · rw [dif_neg h, dif_neg h]

/-- Characterization of the walk: it performs exactly one mutation, at the
first mismatch position, and leaves the stream alone when no mismatch is
found before the end of the chain. -/
lemma walk_char (ss : List kshark_entry) (swIdx : Nat) (pid_rec : Int) (i : Nat) :
    walk ss swIdx pid_rec i =
      (match firstMismatch ss pid_rec i, ss.get? swIdx with
        | some j, some sw => setPidVisible ss j sw.pid
        | _, _ => ss) :=
  walk_char_aux ss swIdx pid_rec (ss.length - i) i le_rfl

lemma firstMismatch_some_aux (ss : List kshark_entry) (pid_rec : Int) :
    ∀ n i j, ss.length - i ≤ n → firstMismatch ss pid_rec i = some j →
      i ≤ j ∧ j + 1 < ss.length ∧ pidAt ss (j + 1) ≠ some pid_rec ∧
        ∀ k, k < j → i ≤ k → pidAt ss (k + 1) = some pid_rec := by
  intro n
  induction n with
  | zero =>
    intro i j hi hfm
    rw [firstMismatch_step, dif_neg (by omega : ¬ i + 1 < ss.length)] at hfm
    exact absurd hfm (by simp)
  | succ n ih =>
    intro i j hi hfm
    rw [firstMismatch_step] at hfm
    by_cases h : i + 1 < ss.length
    · rw [dif_pos h] at hfm
      by_cases hm : (ss.get ⟨i + 1, h⟩).pid = pid_rec
      · rw [if_neg (by simpa using hm)] at hfm
        obtain ⟨h1, h2, h3, h4⟩ := ih (i + 1) j (by omega) hfm
        refine ⟨by omega, h2, h3, ?_⟩
        intro k hk1 hk2
        rcases Nat.eq_or_lt_of_le hk2 with hk | hk
        · subst hk
          rw [pidAt, List.get?_eq_get h]
          simpa using hm
        · exact h4 k hk1 (by omega)
      · rw [if_pos hm] at hfm
        obtain rfl : i = j := by simpa using hfm
        refine ⟨le_rfl, h, ?_, by omega⟩
        intro hcon
        rw [pidAt, List.get?_eq_get h] at hcon
        apply hm
        simpa using hcon
    · rw [dif_neg h] at hfm
      exact absurd hfm (by simp)

lemma firstMismatch_some (ss : List kshark_entry) (pid_rec : Int) (i j : Nat)
    (hfm : firstMismatch ss pid_rec i = some j) :
    i ≤ j ∧ j + 1 < ss.length ∧ pidAt ss (j + 1) ≠ some pid_rec ∧
      ∀ k, k < j → i ≤ k → pidAt ss (k + 1) = some pid_rec :=
  firstMismatch_some_aux ss pid_rec (ss.length - i) i j le_rfl hfm

lemma firstMismatch_of_aux (ss : List kshark_entry) (pid_rec : Int) :
    ∀ n i j, ss.length - i ≤ n → i ≤ j → j + 1 < ss.length →
      pidAt ss (j + 1) ≠ some pid_rec →
      (∀ k, k < j → i ≤ k → pidAt ss (k + 1) = some pid_rec) →
      firstMismatch ss pid_rec i = some j := by
  intro n
  induction n with
  | zero =>
    intro i j hi hij hj hmis hpre
    omega
  | succ n ih =>
    intro i j hi hij hj hmis hpre
    have h : i + 1 < ss.length := by omega
    rw [firstMismatch_step, dif_pos h]
    rcases Nat.eq_or_lt_of_le hij with hij' | hij'
    · subst hij'
      have hne : (ss.get ⟨i + 1, h⟩).pid ≠ pid_rec := by
        intro hm
        apply hmis
        rw [pidAt, List.get?_eq_get h]
        simpa using hm
      rw [if_pos hne]
    · have hpid : (ss.get ⟨i + 1, h⟩).pid = pid_rec := by
        have hx := hpre i hij' le_rfl
        rw [pidAt, List.get?_eq_get h] at hx
        simpa using hx
      rw [if_neg (by simpa using hpid)]
      exact ih (i + 1) j (by omega) (by omega) hj hmis
        (fun k hk1 hk2 => hpre k hk1 (by omega))

lemma firstMismatch_of (ss : List kshark_entry) (pid_rec : Int) (i j : Nat)
    (hij : i ≤ j) (hj : j + 1 < ss.length)
    (hmis : pidAt ss (j + 1) ≠ some pid_rec)
    (hpre : ∀ k, k < j → i ≤ k → pidAt ss (k + 1) = some pid_rec) :
    firstMismatch ss pid_rec i = some j :=
  firstMismatch_of_aux ss pid_rec (ss.length - i) i j le_rfl hij hj hmis hpre

lemma firstMismatch_none_aux (ss : List kshark_entry) (pid_rec : Int) :
    ∀ n i, ss.length - i ≤ n → firstMismatch ss pid_rec i = none →
      ∀ k, i ≤ k → k + 1 < ss.length → pidAt ss (k + 1) = some pid_rec := by
  intro n
  induction n with
  | zero =>
    intro i hi hfm k hik hk
    omega
  | succ n ih =>
    intro i hi hfm k hik hk
    rw [firstMismatch_step] at hfm
    by_cases h : i + 1 < ss.length
    · rw [dif_pos h] at hfm
      by_cases hm : (ss.get ⟨i + 1, h⟩).pid = pid_rec
      · rw [if_neg (by simpa using hm)] at hfm
        rcases Nat.eq_or_lt_of_le hik with hik' | hik'
        · subst hik'
          rw [pidAt, List.get?_eq_get h]
          simpa using hm
        · exact ih (i + 1) (by omega) hfm k (by omega) hk
      · rw [if_pos hm] at hfm
        exact absurd hfm (by simp)
    · omega

lemma firstMismatch_none (ss : List kshark_entry) (pid_rec : Int) (i : Nat)
    (hfm : firstMismatch ss pid_rec i = none) :
    ∀ k, i ≤ k → k + 1 < ss.length → pidAt ss (k + 1) = some pid_rec :=
  firstMismatch_none_aux ss pid_rec (ss.length - i) i le_rfl hfm

/-- Skip test, stated from the spec sentence for claim C1 with the polarity
of its last condition corrected to match the code: skip when the entry has
no successor, its pid is zero, its event kind equals the successor event
kind, or the recorded id differs from the successor pid. -/
def skipCondAmended (getPid : Int → Int) (d : kshark_data_field)
    (ss : List kshark_entry) : Bool :=
  match ss.get? d.idx, ss.get? (d.idx + 1) with
  | some e, some nxt =>
    e.pid == 0 || e.event_id == nxt.event_id || getPid d.field != nxt.pid
  | _, _ => true

lemma processElem_char (getPid : Int → Int) (d : kshark_data_field)
    (ss : List kshark_entry) :
    processElem getPid d ss =
      if skipCondAmended getPid d ss then ss
      else walk ss d.idx (getPid d.field) d.idx := by
  unfold processElem skipCondAmended
  cases h1 : ss.get? d.idx with
  | none => cases h2 : ss.get? (d.idx + 1) <;> simp
  | some e =>
    cases h2 : ss.get? (d.idx + 1) with
    | none => simp
    | some nxt =>
      dsimp only
      by_cases hc : e.pid = 0 ∨ e.event_id = nxt.event_id ∨ getPid d.field ≠ nxt.pid
      · rw [if_pos hc, if_pos]
        simpa [or_assoc] using hc
      · rw [if_neg hc, if_neg]
        simpa [or_assoc, and_assoc] using hc

lemma setPidVisible_none (ss : List kshark_entry) (j : Nat) (p : Int)
    (h : ss.get? j = none) : setPidVisible ss j p = ss := by
  unfold setPidVisible
  rw [h]

/-- Frame relation between an original and a transformed stream entry: the
event kind is kept, and the visibility mask is either untouched or has
exactly the untouched bit cleared. -/
def frameOk : Option kshark_entry → Option kshark_entry → Prop
  | some e, some f =>
    f.event_id = e.event_id ∧
      (f.visible = e.visible ∨ f.visible = clearUntouched e.visible)
  | none, none => True
  | _, _ => False

lemma frameOk_refl (o : Option kshark_entry) : frameOk o o := by
  cases o <;> simp [frameOk]

lemma frameOk_trans (a b c : Option kshark_entry)
    (h1 : frameOk a b) (h2 : frameOk b c) : frameOk a c := by
  cases a <;> cases b <;> cases c <;> simp [frameOk] at h1 h2 ⊢
  obtain ⟨he1, hv1⟩ := h1
  obtain ⟨he2, hv2⟩ := h2
  refine ⟨he2.trans he1, ?_⟩
  rcases hv1 with hv1 | hv1 <;> rcases hv2 with hv2 | hv2 <;>
    rw [hv2, hv1] <;> simp [clearUntouched_idem]

lemma setPidVisible_frame (ss : List kshark_entry) (j : Nat) (p : Int) (k : Nat) :
    frameOk (ss.get? k) ((setPidVisible ss j p).get? k) := by
  by_cases hk : k = j
  · rw [hk]
    cases h : ss.get? j with
    | none =>
      rw [setPidVisible_none ss j p h, h]
      exact frameOk_refl _
    | some e =>
      rw [setPidVisible_get?_eq ss j p e h]
      exact ⟨rfl, Or.inr rfl⟩
  · rw [setPidVisible_get?_ne ss j p k hk]
    exact frameOk_refl _

lemma processElem_cases (getPid : Int → Int) (d : kshark_data_field)
    (ss : List kshark_entry) :
    processElem getPid d ss = ss ∨
      ∃ j p, processElem getPid d ss = setPidVisible ss j p := by
  rw [processElem_char]
  by_cases hs : skipCondAmended getPid d ss
  · rw [if_pos hs]
    exact Or.inl rfl
  · rw [if_neg hs, walk_char]
    cases hfm : firstMismatch ss (getPid d.field) d.idx with
    | none => exact Or.inl rfl
    | some j =>
      cases hsw : ss.get? d.idx with
      | none => exact Or.inl rfl
      | some sw => exact Or.inr ⟨j, sw.pid, rfl⟩

lemma processElem_length (getPid : Int → Int) (d : kshark_data_field)
    (ss : List kshark_entry) : (processElem getPid d ss).length = ss.length := by
  rcases processElem_cases getPid d ss with h | ⟨j, p, h⟩ <;> rw [h]
  exact setPidVisible_length ss j p

lemma processElem_frame (getPid : Int → Int) (d : kshark_data_field)
    (ss : List kshark_entry) (k : Nat) :
    frameOk (ss.get? k) ((processElem getPid d ss).get? k) := by
  rcases processElem_cases getPid d ss with h | ⟨j, p, h⟩ <;> rw [h]
  · exact frameOk_refl _
  · exact setPidVisible_frame ss j p k

lemma secondPass_cons (getPid : Int → Int) (d : kshark_data_field)
    (rest : List kshark_data_field) (ss : List kshark_entry) :
    secondPass getPid (d :: rest) ss =
      secondPass getPid rest (processElem getPid d ss) := rfl

lemma secondPass_frame (getPid : Int → Int) :
    ∀ (cSS : List kshark_data_field) (ss : List kshark_entry),
      (secondPass getPid cSS ss).length = ss.length ∧
      ∀ k, frameOk (ss.get? k) ((secondPass getPid cSS ss).get? k) := by
  intro cSS
  induction cSS with
  | nil => exact fun ss => ⟨rfl, fun k => frameOk_refl _⟩
  | cons d rest ih =>
    intro ss
    obtain ⟨hlen, hfr⟩ := ih (processElem getPid d ss)
    rw [secondPass_cons]
    refine ⟨hlen.trans (processElem_length getPid d ss), fun k => ?_⟩
    exact frameOk_trans _ _ _ (processElem_frame getPid d ss k) (hfr k)

lemma processElem_at_most_one (getPid : Int → Int) (d : kshark_data_field)
    (ss : List kshark_entry) (k l : Nat) (hkl : k ≠ l)
    (hk : (processElem getPid d ss).get? k ≠ ss.get? k) :
    (processElem getPid d ss).get? l = ss.get? l := by
  rcases processElem_cases getPid d ss with h | ⟨j, p, h⟩
  · rw [h] at hk
    exact absurd rfl hk
  · rw [h] at hk ⊢
    have hkj : k = j := by
      by_contra hkj
      exact hk (setPidVisible_get?_ne ss j p k hkj)
    rw [hkj] at hkl
    exact setPidVisible_get?_ne ss j p l fun hl => hkl hl.symm

lemma plugin_draw_guard (getPid : Int → Int)
    (plot : plugin_sched_context → List kshark_entry → Int → List LatencyBox)
    (a : DrawArgs) (st : PluginState)
    (h : ¬ a.taskDraw ∨ a.pid = 0 ∨ ¬ a.hasContext) :
    plugin_draw getPid plot a st = (st, []) := by
  unfold plugin_draw
  by_cases h1 : ¬ a.taskDraw ∨ a.pid = 0
  · rw [if_pos h1]
  · rw [if_neg h1]
    have h3 : ¬ a.hasContext := by tauto
    rw [if_pos h3]

lemma drawStep_done (getPid : Int → Int)
    (plot : plugin_sched_context → List kshark_entry → Int → List LatencyBox)
    (a : DrawArgs) (st : PluginState) (h : st.ctx.second_pass_done = true) :
    drawStep getPid plot a st = st := by
  unfold drawStep plugin_draw
  by_cases h1 : ¬ a.taskDraw ∨ a.pid = 0
  · rw [if_pos h1]
  · rw [if_neg h1]
    by_cases h2 : ¬ a.hasContext
    · rw [if_pos h2]
    · rw [if_neg h2]
      simp [h]

lemma drawStep_flag (getPid : Int → Int)
    (plot : plugin_sched_context → List kshark_entry → Int → List LatencyBox)
    (a : DrawArgs) (st : PluginState) :
    (drawStep getPid plot a st).ctx.second_pass_done = true ∨
      drawStep getPid plot a st = st := by
  unfold drawStep plugin_draw
  by_cases h1 : ¬ a.taskDraw ∨ a.pid = 0
  · right
    rw [if_pos h1]
  · rw [if_neg h1]
    by_cases h2 : ¬ a.hasContext
    · right
      rw [if_pos h2]
    · rw [if_neg h2]
      by_cases h3 : st.ctx.second_pass_done
      · right
        simp [h3]
      · left
        simp [h3]

lemma drawStep_set (getPid : Int → Int)
    (plot : plugin_sched_context → List kshark_entry → Int → List LatencyBox)
    (a : DrawArgs) (st : PluginState)
    (h1 : a.taskDraw = true) (h2 : a.pid ≠ 0) (h3 : a.hasContext = true) :
    (drawStep getPid plot a st).ctx.second_pass_done = true := by
  unfold drawStep plugin_draw
  rw [if_neg (by simp [h1, h2]), if_neg (by simp [h3])]
  by_cases h4 : st.ctx.second_pass_done <;> simp [h4]

lemma mutCount_le (getPid : Int → Int)
    (plot : plugin_sched_context → List kshark_entry → Int → List LatencyBox) :
    ∀ (as : List DrawArgs) (st : PluginState),
      mutCount getPid plot as st ≤ if st.ctx.second_pass_done then 0 else 1 := by
  intro as
  induction as with
  | nil =>
    intro st
    unfold mutCount
    split <;> omega
  | cons a rest ih =>
    intro st
    unfold mutCount
    by_cases hd : st.ctx.second_pass_done
    · have hst := drawStep_done getPid plot a st hd
      have hrest := ih (drawStep getPid plot a st)
      rw [hst] at hrest ⊢
      simp [hd] at hrest ⊢
      omega
    · rcases drawStep_flag getPid plot a st with hf | hf
      · have hrest := ih (drawStep getPid plot a st)
        rw [if_pos hf] at hrest
        simp [hd]
        by_cases hstream : (drawStep getPid plot a st).stream = st.stream <;>
          simp [hstream] <;> omega
      · have hrest := ih (drawStep getPid plot a st)
        rw [hf] at hrest ⊢
        simp [hd] at hrest ⊢
        omega

lemma walkFuel_exact_aux (ss : List kshark_entry) (swIdx : Nat) (pid_rec : Int) :
    ∀ fuel i, ss.length - i + 1 ≤ fuel →
      walkFuel ss swIdx pid_rec i fuel = some (walk ss swIdx pid_rec i) := by
  intro fuel
  induction fuel with
  | zero =>
    intro i hi
    omega
  | succ f ih =>
    intro i hi
    rw [walk_step]
    unfold walkFuel
    by_cases h : i + 1 < ss.length
    · rw [dif_pos h, dif_pos h]
      by_cases hm : (ss.get ⟨i + 1, h⟩).pid = pid_rec
      · rw [if_neg (by simpa using hm), if_neg (by simpa using hm)]
        exact ih (i + 1) (by omega)
      · rw [if_pos hm, if_pos hm]
        cases hsw : ss.get? swIdx <;> rfl
    · rw [dif_neg h, dif_neg h]

/-! Concrete inputs: the scenario of the spec (claim C3), reused as a
counterexample input by several other claims.  Entries are listed in
chronological order; Lean index k holds entry k+1 of the scenario. -/

/-- The six-entry stream of the C3 scenario: entry 3 (index 2) is a
`sched_switch` recorded with next pid 7, whose own pid was already set to 9
by the first pass (event kind 1); entries 4 and 5 (indices 3 and 4) are
trailing events with pid 7; the entry after entry 5 (index 5) carries
pid 9. -/
def sc3Stream : List kshark_entry :=
  [⟨1, 100, 255⟩, ⟨2, 100, 255⟩, ⟨9, 1, 255⟩, ⟨7, 100, 255⟩, ⟨7, 100, 255⟩,
   ⟨9, 100, 255⟩]

/-- The switch container of the C3 scenario: the single `sched_switch`
entry at index 2, with stored field value 7 (the recorded next pid, read
through `getPid = id`). -/
def sc3Cont : List kshark_data_field := [⟨2, 7⟩]

/-! Claim theorems. -/

/-- Claim C1, counterexample.  The claim states that a container pair is
skipped exactly when the entry has no successor, or its pid is zero, or its
event kind equals the successor event kind, or the recorded id does NOT
differ from the successor pid.  At this input the switch entry (index 2) has
a successor, pid 9 ≠ 0, event kind 1 against the successor kind 100, and the
recorded id 7 equals the successor pid 7, so the claim predicts a skip (its
fourth disjunct holds) — yet the pass walks and mutates the stream. -/
theorem c1_skip_polarity_counterexample :
    sc3Stream.get? 2 = some ⟨9, 1, 255⟩ ∧
    sc3Stream.get? 3 = some ⟨7, 100, 255⟩ ∧
    pidAt sc3Stream 3 = some (id (7 : Int)) ∧
    processElem id ⟨2, 7⟩ sc3Stream ≠ sc3Stream := by decide

/-- Claim C1 (amended): in the correction pass, a container pair is skipped
(no walk, no mutation) exactly when the entry has no successor, or its
current task id is zero, or its event-kind id equals the successor
event-kind id, or the recorded id DIFFERS from the successor task id; in
every other case the walk of step 2 is performed from the entry. -/
theorem c1_skip_guard (getPid : Int → Int) (d : kshark_data_field)
    (ss : List kshark_entry) :
    processElem getPid d ss =
      if skipCondAmended getPid d ss then ss
      else walk ss d.idx (getPid d.field) d.idx :=
  processElem_char getPid d ss

/-- Claim C2, counterexample.  The claim states the boundary entry is
reassigned to carry the recorded id (here 7); the code instead writes the
switch entry current pid (here 9, the next pid set by the first pass): the
mutated entry 5 (index 4) ends with pid 9, not 7. -/
theorem c2_reassigned_value_counterexample :
    pidAt (secondPass id sc3Cont sc3Stream) 4 = some 9 ∧
    (9 : Int) ≠ id 7 := by decide

/-- Claim C2 (amended): for a non-skipped pair the pass walks the chain
until the first successor whose pid differs from the recorded id, and
mutates the entry at which the mismatch is confirmed — the last entry still
carrying the recorded id — writing into it the SWITCH ENTRY current task id
(its next pid, as set by the first pass) and clearing its untouched
visibility bit. -/
theorem c2_boundary_reassignment (getPid : Int → Int) (d : kshark_data_field)
    (ss : List kshark_entry) (j : Nat) (e nxt : kshark_entry)
    (hsw : ss.get? d.idx = some e)
    (hnx : ss.get? (d.idx + 1) = some nxt)
    (hp0 : e.pid ≠ 0)
    (hev : e.event_id ≠ nxt.event_id)
    (hrec : getPid d.field = nxt.pid)
    (hij : d.idx ≤ j)
    (hj : j + 1 < ss.length)
    (hmis : pidAt ss (j + 1) ≠ some (getPid d.field))
    (hpre : ∀ k, k < j → d.idx ≤ k → pidAt ss (k + 1) = some (getPid d.field)) :
    d.idx < j ∧
    ∃ ej, ss.get? j = some ej ∧ ej.pid = getPid d.field ∧
      processElem getPid d ss =
        ss.set j { ej with pid := e.pid, visible := clearUntouched ej.visible } := by
  have hfm : firstMismatch ss (getPid d.field) d.idx = some j :=
    firstMismatch_of ss (getPid d.field) d.idx j hij hj hmis hpre
  have hlt : d.idx < j := by
    rcases Nat.eq_or_lt_of_le hij with heq | h
    · exfalso
      apply hmis
      rw [← heq, pidAt, hnx]
      simp [hrec]
    · exact h
  have hjlen : j < ss.length := by omega
  obtain ⟨ej, hej⟩ : ∃ ej, ss.get? j = some ej :=
    ⟨ss.get ⟨j, hjlen⟩, List.get?_eq_get hjlen⟩
  have hejpid : ej.pid = getPid d.field := by
    have hx := hpre (j - 1) (by omega) (by omega)
    rw [show j - 1 + 1 = j from by omega, pidAt, hej] at hx
    simpa using hx
  have hguard : ¬ (e.pid = 0 ∨ e.event_id = nxt.event_id ∨ getPid d.field ≠ nxt.pid) := by
    push_neg
    exact ⟨hp0, hev, hrec⟩
  have hpe : processElem getPid d ss = walk ss d.idx (getPid d.field) d.idx := by
    unfold processElem
    rw [hsw, hnx]
    dsimp only
    rw [if_neg hguard]
  refine ⟨hlt, ej, hej, hejpid, ?_⟩
  rw [hpe, walk_char, hfm, hsw]
  dsimp only
  unfold setPidVisible
  rw [hej]

/-- Claim C2 witness: the amended theorem applied to the C3 scenario, where
the boundary entry 5 (index 4) still carries the recorded id 7 and ends with
the switch entry pid 9 and a cleared untouched bit. -/
theorem c2_boundary_reassignment_witness :
    2 < 4 ∧
    ∃ ej, sc3Stream.get? 4 = some ej ∧ ej.pid = id (7 : Int) ∧
      processElem id ⟨2, 7⟩ sc3Stream =
        sc3Stream.set 4
          { ej with pid := (9 : Int), visible := clearUntouched ej.visible } :=
  c2_boundary_reassignment id ⟨2, 7⟩ sc3Stream 4 ⟨9, 1, 255⟩ ⟨7, 100, 255⟩
    (by decide) (by decide) (by decide) (by decide) (by decide) (by decide)
    (by decide) (by decide) (by decide)

/-- Claim C3: on the scenario stream one run of the correction pass rewrites
entry 5 (index 4) to pid 9 with the untouched bit cleared and leaves every
other entry unchanged. -/
theorem c3_scenario :
    secondPass id sc3Cont sc3Stream =
      [⟨1, 100, 255⟩, ⟨2, 100, 255⟩, ⟨9, 1, 255⟩, ⟨7, 100, 255⟩,
       ⟨9, 100, clearUntouched 255⟩, ⟨9, 100, 255⟩] ∧
    (secondPass id sc3Cont sc3Stream).take 4 = sc3Stream.take 4 := by decide

/-- Claim C4, counterexample: the correction pass alone is NOT idempotent.
On the scenario stream the first run rewrites entry 5 (index 4) to pid 9;
the second run then sees entry 4 (index 3) as the new boundary (its
successor pid is now 9 ≠ 7) and rewrites it as well, so two runs differ from
one. -/
theorem c4_idempotence_counterexample :
    secondPass id sc3Cont (secondPass id sc3Cont sc3Stream) ≠
      secondPass id sc3Cont sc3Stream := by decide

/-- Claim C4 (amended): idempotence holds only through the external guard.
The draw-level correction step — which runs `secondPass` only when the
second-pass flag of the context is clear and then sets it — is idempotent:
two invocations of the draw entry point with the same arguments leave the
same state as one. -/
theorem c4_guarded_idempotent (getPid : Int → Int)
    (plot : plugin_sched_context → List kshark_entry → Int → List LatencyBox)
    (a : DrawArgs) (st : PluginState) :
    drawStep getPid plot a (drawStep getPid plot a st) =
      drawStep getPid plot a st := by
  rcases drawStep_flag getPid plot a st with hf | hf
  · exact drawStep_done getPid plot a _ hf
  · rw [hf]
    exact hf

/-- Claim C5: hit-test exactness of `LatencyBox::distance`.  The distance is
zero exactly when the click lies within the closed horizontal bounds
[pointX(0), pointX(2)] and the closed vertical bounds [pointY(0), pointY(1)],
and it is the unreachable sentinel (the maximum double) for every point
strictly outside those bounds; no other value is ever returned. -/
theorem c5_distance_exact (r : LatencyBox) (x y : Int) :
    (r.distance x y = 0 ↔
      (r.point0.x ≤ x ∧ x ≤ r.point2.x ∧ r.point0.y ≤ y ∧ y ≤ r.point1.y)) ∧
    (¬ (r.point0.x ≤ x ∧ x ≤ r.point2.x ∧ r.point0.y ≤ y ∧ y ≤ r.point1.y) →
      r.distance x y = dblMax) ∧
    (r.distance x y = 0 ∨ r.distance x y = dblMax) := by
  have hne : dblMax ≠ 0 := by
    rw [dblMax]
    norm_num
  unfold LatencyBox.distance
  by_cases h1 : x < r.point0.x ∨ x > r.point2.x
  · rw [if_pos h1]
    refine ⟨⟨fun h0 => absurd h0 hne, fun hb => ?_⟩, fun _ => rfl, Or.inr rfl⟩
    exfalso
    obtain ⟨hb1, hb2, -, -⟩ := hb
    rcases h1 with h1 | h1 <;> omega
  · rw [if_neg h1]
    push_neg at h1
    by_cases h2 : y < r.point0.y ∨ y > r.point1.y
    · rw [if_pos h2]
      refine ⟨⟨fun h0 => absurd h0 hne, fun hb => ?_⟩, fun _ => rfl, Or.inr rfl⟩
      exfalso
      obtain ⟨-, -, hb3, hb4⟩ := hb
      rcases h2 with h2 | h2 <;> omega
    · rw [if_neg h2]
      push_neg at h2
      refine ⟨⟨fun _ => ⟨h1.1, h1.2, h2.1, h2.2⟩, fun _ => rfl⟩, fun hb => ?_, Or.inl rfl⟩
      exact absurd ⟨h1.1, h1.2, h2.1, h2.2⟩ hb

/-- A concrete latency box for the C5 witness, spanning x in [0, 10] and y
in [0, 5]. -/
def c5Box : LatencyBox :=
  ⟨⟨0, 0⟩, ⟨0, 5⟩, ⟨10, 5⟩, ⟨10, 0⟩, false, -1, ⟨0, 255, 0⟩, []⟩

/-- Claim C5 witness: the hit test applied at a point outside and a point
inside the concrete box. -/
theorem c5_distance_exact_witness :
    c5Box.distance 20 3 = dblMax ∧ c5Box.distance 4 3 = 0 :=
  ⟨(c5_distance_exact c5Box 20 3).2.1 (by decide),
   (c5_distance_exact c5Box 4 3).1.mpr (by decide)⟩

/-- The empty interval matcher, used to instantiate the abstract `plot`
parameter at concrete inputs. -/
def noPlot : plugin_sched_context → List kshark_entry → Int → List LatencyBox :=
  fun _ _ _ => []

/-- Claim C6: at-most-once correction invariant.  Over any sequence of
`plugin_draw` invocations the stream is mutated in at most one invocation
when starting from a freshly created context; the second-pass flag is false
at context creation, is set by any invocation that passes the guards, and
once true it stays true and every later invocation leaves the state
untouched. -/
theorem c6_at_most_once (getPid : Int → Int)
    (plot : plugin_sched_context → List kshark_entry → Int → List LatencyBox) :
    (∀ (sw ssd : List kshark_data_field) (stream : List kshark_entry)
        (as : List DrawArgs),
        mutCount getPid plot as
          { ctx := plugin_sched_context_init sw ssd, stream := stream } ≤ 1) ∧
    (∀ sw ssd, (plugin_sched_context_init sw ssd).second_pass_done = false) ∧
    (∀ (a : DrawArgs) (st : PluginState),
        st.ctx.second_pass_done = false → a.taskDraw = true → a.pid ≠ 0 →
        a.hasContext = true →
        (drawStep getPid plot a st).ctx.second_pass_done = true) ∧
    (∀ (a : DrawArgs) (st : PluginState),
        st.ctx.second_pass_done = true →
        (drawStep getPid plot a st).ctx.second_pass_done = true ∧
        drawStep getPid plot a st = st) := by
  refine ⟨?_, fun _ _ => rfl, ?_, ?_⟩
  · intro sw ssd stream as
    have hb := mutCount_le getPid plot as
      { ctx := plugin_sched_context_init sw ssd, stream := stream }
    simpa [plugin_sched_context_init] using hb
  · intro a st h0 h1 h2 h3
    exact drawStep_set getPid plot a st h1 h2 h3
  · intro a st h
    have hd := drawStep_done getPid plot a st h
    exact ⟨by rw [hd]; exact h, hd⟩

/-- A draw invocation that passes every guard, for the C6 and C7
witnesses. -/
def drawArgsOk : DrawArgs := ⟨true, 5, true⟩

/-- A fresh plugin state over the scenario data, for the C6 and C7
witnesses. -/
def freshState : PluginState := ⟨plugin_sched_context_init [] sc3Cont, sc3Stream⟩

/-- A plugin state whose second pass is already done, for the C6 witness. -/
def doneState : PluginState := ⟨⟨[], sc3Cont, true⟩, sc3Stream⟩

/-- Claim C6 witness: the invariant applied to a concrete two-invocation
sequence over the scenario data, a concrete guard-passing step, and a
concrete already-done state. -/
theorem c6_at_most_once_witness :
    mutCount id noPlot [drawArgsOk, drawArgsOk] freshState ≤ 1 ∧
    (drawStep id noPlot drawArgsOk freshState).ctx.second_pass_done = true ∧
    drawStep id noPlot drawArgsOk doneState = doneState :=
  ⟨(c6_at_most_once id noPlot).1 [] sc3Cont sc3Stream [drawArgsOk, drawArgsOk],
   (c6_at_most_once id noPlot).2.2.1 drawArgsOk freshState rfl rfl (by decide) rfl,
   ((c6_at_most_once id noPlot).2.2.2 drawArgsOk doneState rfl).2⟩

/-- Claim C7: with a draw action that does not request task drawing, or a
zero task id, or a stream with no plugin context, `plugin_draw` returns
immediately: no shapes are produced, the stream is not mutated, and the
second-pass flag is left as it was. -/
theorem c7_guard_silent_return (getPid : Int → Int)
    (plot : plugin_sched_context → List kshark_entry → Int → List LatencyBox)
    (a : DrawArgs) (st : PluginState)
    (h : ¬ a.taskDraw ∨ a.pid = 0 ∨ ¬ a.hasContext) :
    plugin_draw getPid plot a st = (st, []) :=
  plugin_draw_guard getPid plot a st h

/-- Claim C7 witness: each of the three guard conditions exercised on a
concrete state. -/
theorem c7_guard_silent_return_witness :
    plugin_draw id noPlot ⟨false, 5, true⟩ freshState = (freshState, []) ∧
    plugin_draw id noPlot ⟨true, 0, true⟩ freshState = (freshState, []) ∧
    plugin_draw id noPlot ⟨true, 5, false⟩ freshState = (freshState, []) :=
  ⟨c7_guard_silent_return id noPlot ⟨false, 5, true⟩ freshState (Or.inl (by decide)),
   c7_guard_silent_return id noPlot ⟨true, 0, true⟩ freshState (Or.inr (Or.inl rfl)),
   c7_guard_silent_return id noPlot ⟨true, 5, false⟩ freshState
     (Or.inr (Or.inr (by decide)))⟩

/-- Claim C8: monotonic termination of the correction walk.  The walk from
cursor `i` needs at most `ss.length - i` iterations (any budget at least
that large produces the same result, and the optional-valued fueled walk
already succeeds with that budget plus the final null-successor test), and
it stops either at the first successor pid mismatch, mutating there, or at
the end of the chain, leaving the stream unchanged. -/
theorem c8_walk_termination (ss : List kshark_entry) (swIdx : Nat)
    (pid_rec : Int) (i : Nat) :
    (∀ fuel, ss.length - i ≤ fuel →
        walkAux ss swIdx pid_rec i fuel = walk ss swIdx pid_rec i) ∧
    walkFuel ss swIdx pid_rec i (ss.length - i + 1) =
      some (walk ss swIdx pid_rec i) ∧
    (firstMismatch ss pid_rec i = none → walk ss swIdx pid_rec i = ss) ∧
    (∀ j sw, firstMismatch ss pid_rec i = some j → ss.get? swIdx = some sw →
        i ≤ j ∧ walk ss swIdx pid_rec i = setPidVisible ss j sw.pid) := by
  refine ⟨?_, walkFuel_exact_aux ss swIdx pid_rec _ i (by omega), ?_, ?_⟩
  · intro fuel hf
    show walkAux ss swIdx pid_rec i fuel = walkAux ss swIdx pid_rec i (ss.length - i)
    exact walkAux_congr ss swIdx pid_rec fuel (ss.length - i) i hf le_rfl
  · intro hfm
    rw [walk_char, hfm]
  · intro j sw hfm hsw
    refine ⟨(firstMismatch_some ss pid_rec i j hfm).1, ?_⟩
    rw [walk_char, hfm, hsw]

/-- Claim C8 witness: the walk of the C3 scenario terminates within its
budget (a larger budget gives the same result) and stops at the first
mismatch, index 4, mutating there. -/
theorem c8_walk_termination_witness :
    walkAux sc3Stream 2 7 2 10 = walk sc3Stream 2 7 2 ∧
    (2 ≤ 4 ∧ walk sc3Stream 2 7 2 =
      setPidVisible sc3Stream 4 (kshark_entry.mk 9 1 255).pid) :=
  ⟨(c8_walk_termination sc3Stream 2 7 2).1 10 (by decide),
   (c8_walk_termination sc3Stream 2 7 2).2.2.2 4 ⟨9, 1, 255⟩ (by decide) (by decide)⟩

/-- Claim C9: for every column geometry, pair of bin indices, data, color
and size, `makeShape` returns a stroke-only (unfilled) rectangle whose
horizontal extent equals the distance between the two bin base positions,
whose vertical extent is the 30% row height (points run from one pixel
above the baseline up to the 30% height above the base), with the given
color and size and the paired field-data references stored on the shape. -/
theorem c9_makeShape_geometry (g : KsGraph) (b0 b1 : Nat)
    (data : List kshark_data_field) (col : Color) (size : Int) :
    (makeShape g b0 b1 data col size).fill = false ∧
    (makeShape g b0 b1 data col size).point0 =
      ⟨(g.bin b0).x - 1, (g.bin b0).y - rowHeight30 g.height⟩ ∧
    (makeShape g b0 b1 data col size).point1 =
      ⟨(g.bin b0).x - 1, (g.bin b0).y - 1⟩ ∧
    (makeShape g b0 b1 data col size).point2 =
      ⟨(g.bin b1).x - 1, (g.bin b1).y - 1⟩ ∧
    (makeShape g b0 b1 data col size).point3 =
      ⟨(g.bin b1).x - 1, (g.bin b1).y - rowHeight30 g.height⟩ ∧
    (makeShape g b0 b1 data col size).point2.x -
        (makeShape g b0 b1 data col size).point0.x =
      (g.bin b1).x - (g.bin b0).x ∧
    (makeShape g b0 b1 data col size).point1.y -
        (makeShape g b0 b1 data col size).point0.y =
      rowHeight30 g.height - 1 ∧
    (makeShape g b0 b1 data col size).color = col ∧
    (makeShape g b0 b1 data col size).size = size ∧
    (makeShape g b0 b1 data col size).data = data := by
  unfold makeShape
  refine ⟨rfl, rfl, rfl, rfl, rfl, by dsimp only; ring, by dsimp only; ring,
    rfl, rfl, rfl⟩

/-- Claim C10: frame property of the correction pass.  The pass preserves
the stream length, every entry keeps its event kind and its visibility mask
is either untouched or has exactly the untouched bit cleared (only pid and
that bit are ever written); and per container element at most one entry is
mutated: if a pass over one element changed the entry at one position,
every other position is unchanged. -/
theorem c10_frame (getPid : Int → Int) (cSS : List kshark_data_field)
    (ss : List kshark_entry) :
    (secondPass getPid cSS ss).length = ss.length ∧
    (∀ k, frameOk (ss.get? k) ((secondPass getPid cSS ss).get? k)) ∧
    (∀ (d : kshark_data_field) (k l : Nat), k ≠ l →
        (processElem getPid d ss).get? k ≠ ss.get? k →
        (processElem getPid d ss).get? l = ss.get? l) := by
  refine ⟨(secondPass_frame getPid cSS ss).1, (secondPass_frame getPid cSS ss).2,
    ?_⟩
  intro d k l hkl hk
  exact processElem_at_most_one getPid d ss k l hkl hk

/-- Claim C10 witness: the frame property applied to the scenario data,
where index 4 is mutated and index 0 is checked unchanged. -/
theorem c10_frame_witness :
    (secondPass id sc3Cont sc3Stream).length = sc3Stream.length ∧
    frameOk (sc3Stream.get? 4) ((secondPass id sc3Cont sc3Stream).get? 4) ∧
    (processElem id ⟨2, 7⟩ sc3Stream).get? 0 = sc3Stream.get? 0 :=
  ⟨(c10_frame id sc3Cont sc3Stream).1,
   (c10_frame id sc3Cont sc3Stream).2.1 4,
   (c10_frame id sc3Cont sc3Stream).2.2 ⟨2, 7⟩ 4 0 (by decide) (by decide)⟩
